import Mathlib

set_option linter.unusedVariables false

/-! Shallow embedding of lwtnn's Graph.cxx: the two ISource variants, the
INode hierarchy, the recursive graph builder with cycle detection and
stack (stage) caching, and the evaluation entry points. Asserts are
modelled as live (a non-NDEBUG build): a failed assert is a distinct
abort, not an NNEvaluationException. -/

/-- Numeric vectors (Eigen VectorXd) are modelled as lists of rationals;
the operations under verification only move entries around, so the scalar
type only needs decidable equality. -/
abbrev Vec := List ℚ

/-- The distinct NNEvaluationException sites in Graph.cxx. -/
inductive EvalErr where
  | graphNoNode (n : Nat)
  | sourceNoVec (n : Nat)
  | dummyNoSize (n : Nat)
  | wrongLength (found expected : Nat)
  deriving DecidableEq, Repr

/-- Evaluation ends in an NNEvaluationException or in a failed assert. -/
inductive EvalFault where
  | evalErr (e : EvalErr)
  | assertFail
  deriving DecidableEq, Repr

/-- The two ISource implementations defined in Graph.cxx. -/
inductive Source where
  | vector (vv : List Vec)
  | dummy (sizes : List Nat)

/-- VectorSource::at / DummySource::at. DummySource synthesizes the vector
0, 1, ..., width-1 for its declared slot width. -/
def Source.at : Source → Nat → Except EvalFault Vec
  | .vector vv, index =>
      if h : vv.length ≤ index then .error (.evalErr (.sourceNoVec index))
      else .ok (vv.get ⟨index, by omega⟩)
  | .dummy sizes, index =>
      if h : sizes.length ≤ index then .error (.evalErr (.dummyNoSize index))
      else .ok ((List.range (sizes.get ⟨index, by omega⟩)).map (fun k => (k : ℚ)))

/-- Modelled from the spec: LayerConfig (NNLayerConfig.hh, not under src/)
is an opaque description of one weight-bearing transform; this core only
passes it through, so it is modelled as an output width together with an
opaque transform function. -/
structure LayerConfig where
  outWidth : Nat
  transform : Vec → Vec

instance : Inhabited LayerConfig := ⟨⟨0, fun _ => []⟩⟩

/-- Truncate or zero-pad a vector to length n. -/
def padTo (n : Nat) (v : Vec) : Vec := v.take n ++ List.replicate (n - v.length) 0

/-- Modelled from the spec: Stack (Stack.hh, not under src/). Per the
external contract it is constructed from the upstream width and one layer
configuration, exposes n_outputs, and its transform returns a vector of
exactly that width (enforced here by padTo); construction is modelled as
total. -/
structure Stack where
  n_in : Nat
  layer : LayerConfig

instance : Inhabited Stack := ⟨⟨0, default⟩⟩

def Stack.n_outputs (s : Stack) : Nat := s.layer.outWidth

def Stack.compute (s : Stack) (v : Vec) : Vec := padTo s.n_outputs (s.layer.transform v)

/-- The INode hierarchy of Graph.cxx. A FeedForwardNode's `Stack*` member
is modelled as the index of the stack in the owning graph's m_stacks arena
(pointer identity) together with the immutable pointee value; node-to-node
pointers become subtrees, which is observationally faithful because nodes
are immutable after construction. -/
inductive INode where
  | input (slot : Nat) (width : Nat)
  | feedForward (stackIdx : Nat) (stack : Stack) (source : INode)
  | concatenate (sources : List INode)

mutual

def INode.n_outputs : INode → Nat
  | .input _ width => width
  | .feedForward _ stack _ => stack.n_outputs
  | .concatenate srcs => INode.sumOutputs srcs

/-- The ConcatenateNode constructor accumulates m_n_outputs over its
sources in listed order. -/
def INode.sumOutputs : List INode → Nat
  | [] => 0
  | nd :: rest => nd.n_outputs + INode.sumOutputs rest

end

mutual

/-- compute of the three node variants. InputNode::compute performs
assert(output.rows() > 0) before the width comparison. On the concatenate
success path each upstream vector has exactly its declared width (checked
by the in-loop assert), so the segment writes at cumulative offsets tile
the output buffer exactly and amount to list concatenation; after the loop
the source reads `assert(offset = m_n_outputs)` - an assignment, so the
asserted value is m_n_outputs itself and the assert fails exactly when the
declared width is zero. -/
def INode.compute : INode → Source → Except EvalFault Vec
  | .input slot width, s =>
      match s.at slot with
      | .error e => .error e
      | .ok v =>
          if v.length = 0 then .error .assertFail
          else if v.length ≠ width then
            .error (.evalErr (.wrongLength v.length width))
          else .ok v
  | .feedForward _ stack src, s =>
      match src.compute s with
      | .error e => .error e
      | .ok v => .ok (stack.compute v)
  | .concatenate srcs, s =>
      match INode.computeParts srcs s with
      | .error e => .error e
      | .ok parts =>
          if INode.sumOutputs srcs = 0 then .error .assertFail
          else .ok parts.flatten

/-- The loop body of ConcatenateNode::compute: compute each upstream in
listed order, assert its length against the upstream's declared width,
collect it. -/
def INode.computeParts : List INode → Source → Except EvalFault (List Vec)
  | [], _ => .ok []
  | nd :: rest, s =>
      match nd.compute s with
      | .error e => .error e
      | .ok v =>
          if v.length ≠ nd.n_outputs then .error .assertFail
          else
            match INode.computeParts rest s with
            | .error e => .error e
            | .ok vs => .ok (v :: vs)

end

/-- Modelled from the spec: NodeConfig::Type (NNLayerConfig.hh, not under
src/). Besides the three kinds handled by build_node the enum has further
values, which reach the "unknown node type" branch; they are collapsed
into one OTHER constructor. -/
inductive NodeType where
  | INPUT | FEED_FORWARD | CONCATENATE | OTHER
  deriving DecidableEq, Repr

structure NodeConfig where
  type : NodeType
  sources : List Nat
  index : Int
  deriving DecidableEq, Repr

/-- The NNConfigurationException sites of Graph.cxx, plus: mapAt for the
std::out_of_range that node_map.at would raise on a missing key, ctorAssert
for the constructor's node-count assert, and outOfFuel for the recursion
bound of the embedding (unreachable: the cycle check bounds the depth). -/
inductive BuildFault where
  | needOneSource (n : Nat)
  | negativeLayer
  | noLayer (n : Nat)
  | noNodeIndex (n : Nat)
  | inputArity (n : Nat)
  | inputNegIndex
  | cycle
  | unknownType
  | mapAt
  | ctorAssert
  | outOfFuel
  deriving DecidableEq, Repr

/-- The state a Graph under construction threads through build_node:
the owned node and stack arenas and the two resolution maps. std::map is
modelled as an association list with fresh-key cons insertion (the builder
only ever inserts keys it has just checked to be absent). -/
structure BuildState where
  m_nodes : List INode
  m_stacks : List Stack
  node_map : List (Nat × INode)
  stack_map : List (Nat × Nat)

/-- m_nodes.push_back(nd); node_map[iii] = m_nodes.back(). -/
def pushNode (st : BuildState) (iii : Nat) (nd : INode) : BuildState :=
  { st with m_nodes := st.m_nodes ++ [nd], node_map := (iii, nd) :: st.node_map }

/-- get_feedforward_node of Graph.cxx: arity check, upstream lookup, layer
index validation, then the stack cache: a Stack is constructed only if no
stack is cached for this layer number, and the node references the cached
(possibly shared) stack. -/
def get_feedforward_node (node : NodeConfig) (layers : List LayerConfig)
    (st : BuildState) : Except (BuildFault × BuildState) (INode × BuildState) :=
  match node.sources with
  | [s0] =>
      match st.node_map.lookup s0 with
      | none => .error (.mapAt, st)
      | some source =>
          if node.index < 0 then .error (.negativeLayer, st)
          else if hL : layers.length ≤ node.index.toNat then
            .error (.noLayer node.index.toNat, st)
          else
            match st.stack_map.lookup node.index.toNat with
            | some k => .ok (.feedForward k (st.m_stacks.getD k default) source, st)
            | none =>
                let stk : Stack := ⟨source.n_outputs, layers.get ⟨node.index.toNat, by omega⟩⟩
                .ok (.feedForward st.m_stacks.length stk source,
                     { st with m_stacks := st.m_stacks ++ [stk],
                               stack_map := (node.index.toNat, st.m_stacks.length) :: st.stack_map })
  | _ => .error (.needOneSource node.sources.length, st)

/-- The CONCATENATE branch gathers the already-resolved upstream nodes in
listed order via node_map.at. -/
def gatherSources : List Nat → List (Nat × INode) → Except BuildFault (List INode)
  | [], _ => .ok []
  | s :: rest, node_map =>
      match node_map.lookup s with
      | none => .error .mapAt
      | some nd =>
          match gatherSources rest node_map with
          | .error e => .error e
          | .ok nds => .ok (nd :: nds)

/-- The `for (size_t source_node : node.sources)` recursion loop, abstracted
over the recursive call so that build_node stays structurally recursive on
its fuel. -/
def build_list_with (f : Nat → BuildState → Except (BuildFault × BuildState) BuildState) :
    List Nat → BuildState → Except (BuildFault × BuildState) BuildState
  | [], st => .ok st
  | s :: rest, st =>
      match f s st with
      | .error e => .error e
      | .ok st1 => build_list_with f rest st1

/-- The body of build_node for an in-range, not-yet-resolved entry `node`
at position iii: the non-recursing INPUT branch, the cycle check against
the active ancestor chain, the recursive resolution of the listed sources
(through `recurse`, which build_node instantiates with itself at
decremented fuel and the chain extended by iii), then the FEED_FORWARD /
CONCATENATE / unknown-kind branches. -/
def build_entry (node : NodeConfig) (layers : List LayerConfig) (iii : Nat)
    (st : BuildState) (cycle_check : List Nat)
    (recurse : Nat → BuildState → Except (BuildFault × BuildState) BuildState) :
    Except (BuildFault × BuildState) BuildState :=
  if node.type = .INPUT then
    match node.sources with
    | [s0] =>
        if node.index < 0 then .error (.inputNegIndex, st)
        else .ok (pushNode st iii (.input s0 node.index.toNat))
    | _ => .error (.inputArity node.sources.length, st)
  else if iii ∈ cycle_check then .error (.cycle, st)
  else
    match build_list_with recurse node.sources st with
    | .error e => .error e
    | .ok st1 =>
        match node.type with
        | .FEED_FORWARD =>
            match get_feedforward_node node layers st1 with
            | .error e => .error e
            | .ok (nd, st2) => .ok (pushNode st2 iii nd)
        | .CONCATENATE =>
            match gatherSources node.sources st1.node_map with
            | .error e => .error (e, st1)
            | .ok ins => .ok (pushNode st1 iii (.concatenate ins))
        | _ => .error (.unknownType, st1)

/-- build_node of Graph.cxx. The cycle_check set is passed by value and
extended with iii before recursing into the sources, so sibling branches
share the ancestor chain but never each other's extensions. The fuel
argument only bounds the recursion depth of the embedding; the cycle check
keeps it from ever being exhausted. -/
def build_node (nodes : List NodeConfig) (layers : List LayerConfig) :
    Nat → Nat → BuildState → List Nat → Except (BuildFault × BuildState) BuildState
  | 0, _, st, _ => .error (.outOfFuel, st)
  | fuel + 1, iii, st, cycle_check =>
      if (st.node_map.lookup iii).isSome then .ok st
      else if h : nodes.length ≤ iii then .error (.noNodeIndex iii, st)
      else
        build_entry (nodes.get ⟨iii, by omega⟩) layers iii st cycle_check
          (fun s st1 => build_node nodes layers fuel s st1 (iii :: cycle_check))

def initState : BuildState := ⟨[], [], [], []⟩

/-- The constructor loop: build every entry in increasing order, each with
a fresh empty cycle_check. -/
def build_loop (nodes : List NodeConfig) (layers : List LayerConfig) :
    List Nat → BuildState → Except (BuildFault × BuildState) BuildState
  | [], st => .ok st
  | iii :: rest, st =>
      match build_node nodes layers (nodes.length + 1) iii st [] with
      | .error e => .error e
      | .ok st1 => build_loop nodes layers rest st1

/-- Graph::Graph(nodes, layers), including the final
assert(node_map.size() == nodes.size()). -/
def buildGraph (nodes : List NodeConfig) (layers : List LayerConfig) :
    Except (BuildFault × BuildState) BuildState :=
  match build_loop nodes layers (List.range nodes.length) initState with
  | .error e => .error e
  | .ok st =>
      if st.node_map.length = nodes.length then .ok st else .error (.ctorAssert, st)

/-- The built Graph: the owned node and stack arenas. -/
structure Graph where
  m_nodes : List INode
  m_stacks : List Stack

def graphOf (st : BuildState) : Graph := ⟨st.m_nodes, st.m_stacks⟩

/-- Graph::compute(source, node_number): range-check against m_nodes, then
dispatch. m_nodes is in construction (push_back) order. -/
def Graph.compute (g : Graph) (source : Source) (node_number : Nat) :
    Except EvalFault Vec :=
  if h : g.m_nodes.length ≤ node_number then
    .error (.evalErr (.graphNoNode node_number))
  else (g.m_nodes.get ⟨node_number, by omega⟩).compute source

/-- Graph::compute(source): assert(m_nodes.size() > 0), then dispatch to
m_nodes.back(), the last node added during construction. -/
def Graph.computeDefault (g : Graph) (source : Source) : Except EvalFault Vec :=
  match g.m_nodes.getLast? with
  | none => .error .assertFail
  | some nd => nd.compute source

/-- Well-formedness of one configuration entry: exactly the checks
build_node and get_feedforward_node perform on it, with upstream ids in
range. -/
def wfNode (N L : Nat) (cfg : NodeConfig) : Bool :=
  match cfg.type with
  | .INPUT => cfg.sources.length == 1 && decide (0 ≤ cfg.index)
  | .FEED_FORWARD =>
      cfg.sources.length == 1 && cfg.sources.all (fun s => decide (s < N)) &&
      decide (0 ≤ cfg.index) && decide (cfg.index.toNat < L)
  | .CONCATENATE => cfg.sources.all (fun s => decide (s < N))
  | .OTHER => false

def WFConfig (nodes : List NodeConfig) (layers : List LayerConfig) : Prop :=
  ∀ cfg ∈ nodes, wfNode nodes.length layers.length cfg = true

/-- A ranking certificate of acyclicity: every dependency edge out of a
non-INPUT entry strictly decreases the rank. A finite configuration graph
is acyclic exactly when such a ranking exists. -/
def RankOk (nodes : List NodeConfig) (rank : Nat → Nat) : Prop :=
  ∀ i (h : i < nodes.length), (nodes.get ⟨i, h⟩).type ≠ .INPUT →
    ∀ j ∈ (nodes.get ⟨i, h⟩).sources, rank j < rank i

/-- Every non-INPUT entry lists only sources with strictly smaller ids. -/
def TopoOrdered (nodes : List NodeConfig) : Prop :=
  ∀ i (h : i < nodes.length), (nodes.get ⟨i, h⟩).type ≠ .INPUT →
    ∀ j ∈ (nodes.get ⟨i, h⟩).sources, j < i

theorem sumOutputs_eq (l : List INode) :
    INode.sumOutputs l = (l.map INode.n_outputs).sum := by
  induction l with
  | nil => simp [INode.sumOutputs]
  | cons nd rest ih => simp [INode.sumOutputs, ih]

theorem source_at_no_graphNoNode (s : Source) (i k : Nat) :
    s.at i ≠ .error (.evalErr (.graphNoNode k)) := by
  cases s <;> simp only [Source.at] <;> split <;> simp

mutual

theorem compute_len (nd : INode) (s : Source) (v : Vec)
    (h : nd.compute s = .ok v) : v.length = nd.n_outputs := by
  cases nd with
  | input slot width =>
    rw [INode.compute] at h
    split at h
    · exact absurd h (by simp)
    · split at h
      · exact absurd h (by simp)
      · split at h
        · exact absurd h (by simp)
        · simp only [INode.n_outputs]
          cases h
          omega
  | feedForward k stk src =>
    rw [INode.compute] at h
    split at h
    · exact absurd h (by simp)
    · cases h
      simp [INode.n_outputs, Stack.compute, padTo, Stack.n_outputs]
      omega
  | concatenate srcs =>
    rw [INode.compute] at h
    split at h
    · exact absurd h (by simp)
    · split at h
      · exact absurd h (by simp)
      · cases h
        next parts heq _ =>
          have hlen := computeParts_len srcs s parts heq
          simp only [INode.n_outputs, sumOutputs_eq]
          rw [List.length_flatten, hlen]

theorem computeParts_len (l : List INode) (s : Source) (vs : List Vec)
    (h : INode.computeParts l s = .ok vs) :
    vs.map List.length = l.map INode.n_outputs := by
  cases l with
  | nil => rw [INode.computeParts] at h; cases h; simp
  | cons nd rest =>
    rw [INode.computeParts] at h
    split at h
    · exact absurd h (by simp)
    · split at h
      · exact absurd h (by simp)
      · split at h
        · exact absurd h (by simp)
        · rename_i x1 v heq hne x2 parts heq2
          cases h
          have ih := computeParts_len rest s parts heq2
          have hv := compute_len nd s v heq
          simp_all

end

mutual

theorem compute_no_graphNoNode (nd : INode) (s : Source) (k : Nat) :
    nd.compute s ≠ .error (.evalErr (.graphNoNode k)) := by
  cases nd with
  | input slot width =>
    rw [INode.compute]
    split
    · next e heq =>
        intro hcontra
        apply source_at_no_graphNoNode s slot k
        rw [heq]
        injection hcontra with h1
        rw [h1]
    · split
      · simp
      · split <;> simp
  | feedForward j stk src =>
    rw [INode.compute]
    split
    · next e heq =>
        intro hcontra
        apply compute_no_graphNoNode src s k
        rw [heq]
        injection hcontra with h1
        rw [h1]
    · simp
  | concatenate srcs =>
    rw [INode.compute]
    split
    · next e heq =>
        intro hcontra
        apply computeParts_no_graphNoNode srcs s k
        rw [heq]
        injection hcontra with h1
        rw [h1]
    · split <;> simp

theorem computeParts_no_graphNoNode (l : List INode) (s : Source) (k : Nat) :
    INode.computeParts l s ≠ .error (.evalErr (.graphNoNode k)) := by
  cases l with
  | nil => rw [INode.computeParts]; simp
  | cons nd rest =>
    rw [INode.computeParts]
    split
    · next e heq =>
        intro hcontra
        apply compute_no_graphNoNode nd s k
        rw [heq]
        injection hcontra with h1
        rw [h1]
    · split
      · simp
      · split
        · next e heq =>
            intro hcontra
            apply computeParts_no_graphNoNode rest s k
            rw [heq]
            injection hcontra with h1
            rw [h1]
        · simp

end

theorem lookup_cons_eq {α : Type} (k a : Nat) (v : α) (l : List (Nat × α)) :
    ((a, v) :: l).lookup k = if k = a then some v else l.lookup k := by
  by_cases hk : k = a
  · simp [List.lookup, hk]
  · have hb : (k == a) = false := by simpa using hk
    simp [List.lookup, hb, hk]

theorem lookup_isSome_iff {α : Type} (l : List (Nat × α)) (k : Nat) :
    (l.lookup k).isSome ↔ k ∈ l.map Prod.fst := by
  induction l with
  | nil => simp [List.lookup]
  | cons p rest ih =>
    obtain ⟨a, b⟩ := p
    by_cases hk : k = a <;> simp [lookup_cons_eq, hk, ih]

theorem keys_complete {α : Type} (l : List (Nat × α)) (N : Nat)
    (hnd : (l.map Prod.fst).Nodup) (hlt : ∀ p ∈ l, p.1 < N) (hlen : l.length = N) :
    ∀ i, i < N → (l.lookup i).isSome := by
  intro i hi
  rw [lookup_isSome_iff]
  have hsub : (l.map Prod.fst).toFinset ⊆ Finset.range N := by
    intro x hx
    simp only [List.mem_toFinset, List.mem_map] at hx
    obtain ⟨p, hp, rfl⟩ := hx
    simp [hlt p hp]
  have hcard : (l.map Prod.fst).toFinset.card = N := by
    rw [List.toFinset_card_of_nodup hnd]
    simp [hlen]
  have hEq : (l.map Prod.fst).toFinset = Finset.range N :=
    Finset.eq_of_subset_of_card_le hsub (by simp [hcard])
  have : i ∈ (l.map Prod.fst).toFinset := by rw [hEq]; simp [hi]
  simpa using this

/-- Growth of the build state across a successful builder step: the node
and stack maps only gain entries and the stack arena only grows at the
end, so existing references stay valid. -/
def StExt (st st1 : BuildState) : Prop :=
  (∀ k v, st.node_map.lookup k = some v → st1.node_map.lookup k = some v) ∧
  (∀ L j, st.stack_map.lookup L = some j → st1.stack_map.lookup L = some j) ∧
  st.m_stacks.length ≤ st1.m_stacks.length ∧
  st1.m_stacks.take st.m_stacks.length = st.m_stacks

theorem stExt_refl (st : BuildState) : StExt st st :=
  ⟨fun _ _ h => h, fun _ _ h => h, le_refl _, List.take_length _⟩

theorem StExt.trans {a b c : BuildState} (h1 : StExt a b) (h2 : StExt b c) : StExt a c := by
  obtain ⟨n1, s1, l1, t1⟩ := h1
  obtain ⟨n2, s2, l2, t2⟩ := h2
  refine ⟨fun k v h => n2 k v (n1 k v h), fun L j h => s2 L j (s1 L j h), le_trans l1 l2, ?_⟩
  have h3 : c.m_stacks.take a.m_stacks.length
      = (c.m_stacks.take b.m_stacks.length).take a.m_stacks.length := by
    rw [List.take_take, min_eq_left l1]
  rw [h3, t2, t1]

theorem StExt.stackGetElem {a b : BuildState} (h : StExt a b) (k : Nat)
    (hk : k < a.m_stacks.length) : b.m_stacks[k]? = a.m_stacks[k]? := by
  conv_rhs => rw [← h.2.2.2]
  rw [List.getElem?_take_of_lt hk]

/-- Keys that are on the active ancestor chain and unresolved stay
unresolved across a successful recursive build (an INPUT entry can sit on
the chain only if recursion never returns to it, hence the type side
condition). -/
def CFresh (nodes : List NodeConfig) (cc : List Nat) (st st1 : BuildState) : Prop :=
  ∀ m ∈ cc, (∀ h : m < nodes.length, (nodes.get ⟨m, h⟩).type ≠ .INPUT) →
    st.node_map.lookup m = none → st1.node_map.lookup m = none

theorem cFresh_refl (nodes : List NodeConfig) (cc : List Nat) (st : BuildState) :
    CFresh nodes cc st st := fun _ _ _ h => h

/-- Every FEED_FORWARD entry already resolved holds the stack index cached
for its layer number, and that index points into the stack arena at the
very stack value stored in the node. -/
def FFOk (nodes : List NodeConfig) (st : BuildState) : Prop :=
  ∀ i nd, st.node_map.lookup i = some nd →
    ∀ h : i < nodes.length, (nodes.get ⟨i, h⟩).type = .FEED_FORWARD →
      ∃ k src, st.stack_map.lookup ((nodes.get ⟨i, h⟩).index.toNat) = some k ∧
        ∃ hk : k < st.m_stacks.length, nd = .feedForward k (st.m_stacks.get ⟨k, hk⟩) src

/-- The builder's state invariant: resolution-map keys are unique and in
range, one owned node per resolved entry, one owned stack per cached layer
number with valid arena indices, and resolved FEED_FORWARD nodes reference
their cached stack. -/
structure GInv (nodes : List NodeConfig) (st : BuildState) : Prop where
  ndKeys : (st.node_map.map Prod.fst).Nodup
  keysLt : ∀ p ∈ st.node_map, p.1 < nodes.length
  lenEq : st.m_nodes.length = st.node_map.length
  stLen : st.stack_map.length = st.m_stacks.length
  stKeys : (st.stack_map.map Prod.fst).Nodup
  stValLt : ∀ p ∈ st.stack_map, p.2 < st.m_stacks.length
  ffOk : FFOk nodes st

theorem ginv_init (nodes : List NodeConfig) : GInv nodes initState := by
  refine ⟨by simp [initState], by simp [initState], rfl, rfl, by simp [initState],
    by simp [initState], ?_⟩
  intro i nd h
  simp [initState, List.lookup] at h

theorem lookup_mem {α : Type} {l : List (Nat × α)} {k : Nat} {v : α}
    (h : l.lookup k = some v) : (k, v) ∈ l := by
  induction l with
  | nil => simp [List.lookup] at h
  | cons p rest ih =>
    obtain ⟨a, b⟩ := p
    rw [lookup_cons_eq] at h
    split at h
    · rename_i hk
      cases h
      simp [hk]
    · simp [ih h]

theorem pushNode_lookup (st : BuildState) (iii : Nat) (nd : INode) (k : Nat) :
    (pushNode st iii nd).node_map.lookup k
      = if k = iii then some nd else st.node_map.lookup k := by
  simp [pushNode, lookup_cons_eq]

theorem pushNode_ext (st : BuildState) (iii : Nat) (nd : INode)
    (hn : st.node_map.lookup iii = none) : StExt st (pushNode st iii nd) := by
  refine ⟨?_, fun _ _ h => h, le_refl _, List.take_length _⟩
  intro k v h
  rw [pushNode_lookup]
  split
  · rename_i hk
    rw [hk] at h
    rw [h] at hn
    cases hn
  · exact h

theorem pushNode_ginv (nodes : List NodeConfig) (st : BuildState) (iii : Nat) (nd : INode)
    (hn : st.node_map.lookup iii = none) (hi : iii < nodes.length) (g : GInv nodes st)
    (hff : ∀ h : iii < nodes.length, (nodes.get ⟨iii, h⟩).type = .FEED_FORWARD →
      ∃ k src, st.stack_map.lookup ((nodes.get ⟨iii, h⟩).index.toNat) = some k ∧
        ∃ hk : k < st.m_stacks.length, nd = .feedForward k (st.m_stacks.get ⟨k, hk⟩) src) :
    GInv nodes (pushNode st iii nd) := by
  refine ⟨?_, ?_, ?_, g.stLen, g.stKeys, g.stValLt, ?_⟩
  · simp only [pushNode, List.map_cons, List.nodup_cons]
    refine ⟨?_, g.ndKeys⟩
    intro hmem
    have := (lookup_isSome_iff st.node_map iii).mpr hmem
    rw [hn] at this
    cases this
  · intro p hp
    simp only [pushNode, List.mem_cons] at hp
    rcases hp with rfl | hp
    · exact hi
    · exact g.keysLt p hp
  · simp [pushNode, g.lenEq]
  · intro i nd2 hl h hty
    rw [pushNode_lookup] at hl
    split at hl
    · rename_i hk
      cases hl
      subst hk
      exact hff h hty
    · exact g.ffOk i nd2 hl h hty

/-- The stack-cache fragment of the invariant, threaded separately through
get_feedforward_node which never touches the node collections. -/
def StackInv (st : BuildState) : Prop :=
  st.stack_map.length = st.m_stacks.length ∧
  (st.stack_map.map Prod.fst).Nodup ∧
  ∀ p ∈ st.stack_map, p.2 < st.m_stacks.length

theorem get_ff_post (node : NodeConfig) (layers : List LayerConfig) (st : BuildState)
    (nd : INode) (st2 : BuildState)
    (h : get_feedforward_node node layers st = .ok (nd, st2)) :
    st2.node_map = st.node_map ∧ st2.m_nodes = st.m_nodes ∧ StExt st st2 ∧
    (StackInv st → StackInv st2 ∧
      ∃ k src, st2.stack_map.lookup node.index.toNat = some k ∧
        ∃ hk : k < st2.m_stacks.length,
          nd = .feedForward k (st2.m_stacks.get ⟨k, hk⟩) src) := by
  rw [get_feedforward_node] at h
  split at h
  · rename_i s0
    split at h
    · exact absurd h (by simp)
    · rename_i source hsrc
      split at h
      · exact absurd h (by simp)
      · split at h
        · exact absurd h (by simp)
        · rename_i hpos hL
          split at h
          · rename_i k hk
            cases h
            refine ⟨rfl, rfl, stExt_refl _, ?_⟩
            intro hsi
            obtain ⟨hlen, hnd, hval⟩ := hsi
            have hkmem := lookup_mem hk
            have hklt : k < st.m_stacks.length := hval _ hkmem
            refine ⟨⟨hlen, hnd, hval⟩, k, source, hk, hklt, ?_⟩
            rw [List.getD_eq_getElem st.m_stacks default hklt]
            simp [List.get_eq_getElem]
          · rename_i hnone
            cases h
            have hfree : node.index.toNat ∉ st.stack_map.map Prod.fst := by
              intro hmem
              have := (lookup_isSome_iff st.stack_map node.index.toNat).mpr hmem
              rw [hnone] at this
              cases this
            refine ⟨rfl, rfl, ?_, ?_⟩
            · refine ⟨fun _ _ h => h, ?_, by simp, List.take_left _ _⟩
              intro L j hL2
              simp only [lookup_cons_eq]
              split
              · rename_i hLe
                rw [hLe] at hL2
                rw [hL2] at hnone
                cases hnone
              · exact hL2
            · intro hsi
              obtain ⟨hlen, hnd, hval⟩ := hsi
              constructor
              · refine ⟨by simp [hlen], ?_, ?_⟩
                · simp only [List.map_cons, List.nodup_cons]
                  exact ⟨hfree, hnd⟩
                · intro p hp
                  simp only [List.mem_cons] at hp
                  rcases hp with rfl | hp
                  · simp
                  · simp only [List.length_append, List.length_singleton]
                    exact lt_of_lt_of_le (hval p hp) (by omega)
              · refine ⟨st.m_stacks.length, source, ?_, by simp, ?_⟩
                · simp [lookup_cons_eq]
                · simp [List.get_eq_getElem]
  · exact absurd h (by simp)

theorem ffok_ext (nodes : List NodeConfig) {st st2 : BuildState}
    (hnm : st2.node_map = st.node_map) (e : StExt st st2) (hf : FFOk nodes st) :
    FFOk nodes st2 := by
  intro i nd hl h hty
  rw [hnm] at hl
  obtain ⟨k, src, hsm, hk, hnd⟩ := hf i nd hl h hty
  have hk2 : k < st2.m_stacks.length := lt_of_lt_of_le hk e.2.2.1
  refine ⟨k, src, e.2.1 _ _ hsm, hk2, ?_⟩
  rw [hnd]
  have ha := e.stackGetElem k hk
  rw [List.getElem?_eq_getElem hk2, List.getElem?_eq_getElem hk] at ha
  have h2 : st2.m_stacks.get ⟨k, hk2⟩ = st.m_stacks.get ⟨k, hk⟩ := by
    simp only [List.get_eq_getElem]
    exact Option.some.inj ha
  rw [h2]

theorem build_node_post (nodes : List NodeConfig) (layers : List LayerConfig) :
    ∀ fuel iii st cc st1, build_node nodes layers fuel iii st cc = .ok st1 →
      StExt st st1 ∧ CFresh nodes cc st st1 ∧ (GInv nodes st → GInv nodes st1) ∧
      (st1.node_map.lookup iii).isSome := by
  intro fuel
  induction fuel with
  | zero =>
    intro iii st cc st1 h
    rw [build_node] at h
    exact absurd h (by simp)
  | succ f ih =>
    have hlist : ∀ cc2 srcs st st1,
        build_list_with (fun s st0 => build_node nodes layers f s st0 cc2) srcs st = .ok st1 →
        StExt st st1 ∧ CFresh nodes cc2 st st1 ∧ (GInv nodes st → GInv nodes st1) ∧
        ∀ j ∈ srcs, (st1.node_map.lookup j).isSome := by
      intro cc2 srcs
      induction srcs with
      | nil =>
        intro st st1 h
        rw [build_list_with] at h
        cases h
        exact ⟨stExt_refl _, cFresh_refl _ _ _, fun g => g, by simp⟩
      | cons s rest ihs =>
        intro st st1 h
        rw [build_list_with] at h
        split at h
        · exact absurd h (by simp)
        · rename_i stm hs
          obtain ⟨e1, c1, g1, p1⟩ := ih s st cc2 stm hs
          obtain ⟨e2, c2, g2, pall⟩ := ihs stm st1 h
          refine ⟨e1.trans e2, ?_, fun g => g2 (g1 g), ?_⟩
          · intro m hm hty hn
            exact c2 m hm hty (c1 m hm hty hn)
          · intro j hj
            rcases List.mem_cons.mp hj with rfl | hj2
            · obtain ⟨v, hv⟩ := Option.isSome_iff_exists.mp p1
              exact Option.isSome_iff_exists.mpr ⟨v, e2.1 j v hv⟩
            · exact pall j hj2
    intro iii st cc st1 h
    rw [build_node] at h
    split at h
    · rename_i hmemo
      cases h
      exact ⟨stExt_refl _, cFresh_refl _ _ _, fun g => g, hmemo⟩
    · rename_i hmemo
      split at h
      · exact absurd h (by simp)
      · rename_i hrange
        have hnone : st.node_map.lookup iii = none := by
          cases hx : st.node_map.lookup iii with
          | none => rfl
          | some v => rw [hx] at hmemo; simp at hmemo
        rw [build_entry] at h
        split at h
        · -- INPUT branch
          rename_i hty
          split at h
          · rename_i s0
            split at h
            · exact absurd h (by simp)
            · rename_i hidx
              cases h
              refine ⟨pushNode_ext _ _ _ hnone, ?_, ?_, ?_⟩
              · intro m hm hmty hmn
                rw [pushNode_lookup]
                split
                · rename_i hmi
                  subst hmi
                  exact absurd hty (hmty (by omega))
                · exact hmn
              · intro g
                refine pushNode_ginv nodes st iii _ hnone (by omega) g ?_
                intro h2 hff
                rw [hty] at hff
                cases hff
              · rw [pushNode_lookup]
                simp
          · exact absurd h (by simp)
        · -- non-INPUT
          rename_i hty
          split at h
          · exact absurd h (by simp)
          · rename_i hcyc
            split at h
            · exact absurd h (by simp)
            · rename_i stm hbl
              obtain ⟨e1, c1, g1, pall⟩ := hlist (iii :: cc) _ st stm hbl
              have hstmnone : stm.node_map.lookup iii = none :=
                c1 iii (by simp) (fun _ => hty) hnone
              split at h
              · -- FEED_FORWARD
                rename_i htyFF
                split at h
                · exact absurd h (by simp)
                · rename_i nd st2 hgff
                  cases h
                  obtain ⟨hnm, hmn2, e2, hstk⟩ := get_ff_post _ _ _ _ _ hgff
                  have hst2none : st2.node_map.lookup iii = none := by
                    rw [hnm]; exact hstmnone
                  refine ⟨(e1.trans e2).trans (pushNode_ext _ _ _ hst2none), ?_, ?_, ?_⟩
                  · intro m hm hmty hmn
                    rw [pushNode_lookup]
                    split
                    · rename_i hmi
                      subst hmi
                      exact absurd hm hcyc
                    · rw [hnm]
                      exact c1 m (by simp [hm]) hmty hmn
                  · intro g
                    have g2 : GInv nodes stm := g1 g
                    obtain ⟨hsi2, k, src, hsm, hk, hnd⟩ :=
                      hstk ⟨g2.stLen, g2.stKeys, g2.stValLt⟩
                    have g3 : GInv nodes st2 :=
                      ⟨by rw [hnm]; exact g2.ndKeys,
                       by rw [hnm]; exact g2.keysLt,
                       by rw [hnm, hmn2]; exact g2.lenEq,
                       hsi2.1, hsi2.2.1, hsi2.2.2,
                       ffok_ext nodes hnm e2 g2.ffOk⟩
                    refine pushNode_ginv nodes st2 iii nd hst2none (by omega) g3 ?_
                    intro h2 _
                    exact ⟨k, src, hsm, hk, hnd⟩
                  · rw [pushNode_lookup]
                    simp
              · -- CONCATENATE
                rename_i htyC
                split at h
                · exact absurd h (by simp)
                · rename_i ins hgather
                  cases h
                  refine ⟨e1.trans (pushNode_ext _ _ _ hstmnone), ?_, ?_, ?_⟩
                  · intro m hm hmty hmn
                    rw [pushNode_lookup]
                    split
                    · rename_i hmi
                      subst hmi
                      exact absurd hm hcyc
                    · exact c1 m (by simp [hm]) hmty hmn
                  · intro g
                    refine pushNode_ginv nodes stm iii _ hstmnone (by omega) (g1 g) ?_
                    intro h2 hff
                    rw [htyC] at hff
                    cases hff
                  · rw [pushNode_lookup]
                    simp
              · exact absurd h (by simp)

theorem build_loop_post (nodes : List NodeConfig) (layers : List LayerConfig) :
    ∀ l st st1, build_loop nodes layers l st = .ok st1 →
      StExt st st1 ∧ (GInv nodes st → GInv nodes st1) ∧
      ∀ iii ∈ l, (st1.node_map.lookup iii).isSome := by
  intro l
  induction l with
  | nil =>
    intro st st1 h
    rw [build_loop] at h
    cases h
    exact ⟨stExt_refl _, fun g => g, by simp⟩
  | cons i rest ihs =>
    intro st st1 h
    rw [build_loop] at h
    split at h
    · exact absurd h (by simp)
    · rename_i stm hs
      obtain ⟨e1, c1, g1, p1⟩ := build_node_post nodes layers _ i st [] stm hs
      obtain ⟨e2, g2, pall⟩ := ihs stm st1 h
      refine ⟨e1.trans e2, fun g => g2 (g1 g), ?_⟩
      intro j hj
      rcases List.mem_cons.mp hj with rfl | hj2
      · obtain ⟨v, hv⟩ := Option.isSome_iff_exists.mp p1
        exact Option.isSome_iff_exists.mpr ⟨v, e2.1 j v hv⟩
      · exact pall j hj2

theorem buildGraph_post (nodes : List NodeConfig) (layers : List LayerConfig)
    (st : BuildState) (h : buildGraph nodes layers = .ok st) :
    GInv nodes st ∧ st.node_map.length = nodes.length ∧
    st.m_nodes.length = nodes.length ∧
    ∀ i, i < nodes.length → (st.node_map.lookup i).isSome := by
  rw [buildGraph] at h
  split at h
  · exact absurd h (by simp)
  · rename_i stl hl
    split at h
    · rename_i hguard
      cases h
      obtain ⟨e, g, pall⟩ := build_loop_post nodes layers _ _ _ hl
      have gi := g (ginv_init nodes)
      exact ⟨gi, hguard, by rw [gi.lenEq, hguard], fun i hi => pall i (by simp [hi])⟩
    · exact absurd h (by simp)

theorem build_node_memo (nodes : List NodeConfig) (layers : List LayerConfig)
    (f iii : Nat) (st : BuildState) (cc : List Nat) (hf : 0 < f)
    (hm : (st.node_map.lookup iii).isSome) :
    build_node nodes layers f iii st cc = .ok st := by
  cases f with
  | zero => omega
  | succ f2 =>
    rw [build_node]
    simp [hm]

theorem build_list_memo (nodes : List NodeConfig) (layers : List LayerConfig)
    (f : Nat) (cc : List Nat) (hf : 0 < f) :
    ∀ srcs (st : BuildState), (∀ j ∈ srcs, (st.node_map.lookup j).isSome) →
      build_list_with (fun s st0 => build_node nodes layers f s st0 cc) srcs st = .ok st := by
  intro srcs
  induction srcs with
  | nil =>
    intro st hall
    rw [build_list_with]
  | cons s rest ihs =>
    intro st hall
    rw [build_list_with]
    rw [build_node_memo nodes layers f s st cc hf (hall s (by simp))]
    exact ihs st (fun j hj => hall j (by simp [hj]))

theorem topo_step (nodes : List NodeConfig) (layers : List LayerConfig)
    (htopo : TopoOrdered nodes) (iii : Nat) (hi : iii < nodes.length)
    (st stm : BuildState)
    (hAgree : ∀ i, st.node_map.lookup i = st.m_nodes[i]?)
    (hlen : st.m_nodes.length = iii)
    (h : build_node nodes layers (nodes.length + 1) iii st [] = .ok stm) :
    (∀ i, stm.node_map.lookup i = stm.m_nodes[i]?) ∧ stm.m_nodes.length = iii + 1 := by
  have hnone : st.node_map.lookup iii = none := by
    rw [hAgree]
    exact List.getElem?_eq_none_iff.mpr (by omega)
  have hpush : ∀ (stb : BuildState) nd,
      (∀ i, stb.node_map.lookup i = stb.m_nodes[i]?) → stb.m_nodes.length = iii →
      (∀ i, (pushNode stb iii nd).node_map.lookup i = (pushNode stb iii nd).m_nodes[i]?) ∧
      (pushNode stb iii nd).m_nodes.length = iii + 1 := by
    intro stb nd hA hL
    constructor
    · intro i
      rw [pushNode_lookup]
      simp only [pushNode]
      by_cases hii : i = iii
      · subst hii
        rw [if_pos rfl, ← hL, List.getElem?_concat_length]
      · rw [if_neg hii]
        rcases lt_or_ge i stb.m_nodes.length with hlt | hge
        · rw [List.getElem?_append_left hlt]
          exact hA i
        · have h1 : stb.m_nodes[i]? = none := List.getElem?_eq_none_iff.mpr hge
          have h2 : (stb.m_nodes ++ [nd])[i]? = none := by
            apply List.getElem?_eq_none_iff.mpr
            simp only [List.length_append, List.length_singleton]
            omega
          rw [h2, hA i, h1]
    · simp [pushNode, hL]
  rw [build_node] at h
  split at h
  · rename_i hmemo
    rw [hnone] at hmemo
    simp at hmemo
  · split at h
    · exact absurd h (by simp)
    · rename_i hmemo hrange
      rw [build_entry] at h
      split at h
      · rename_i hty
        split at h
        · rename_i s0
          split at h
          · exact absurd h (by simp)
          · cases h
            exact hpush st _ hAgree hlen
        · exact absurd h (by simp)
      · rename_i hty
        split at h
        · exact absurd h (by simp)
        · rename_i hcyc
          have hall : ∀ j ∈ (nodes.get ⟨iii, by omega⟩).sources,
              (st.node_map.lookup j).isSome := by
            intro j hj
            have hjlt : j < iii := htopo iii (by omega) hty j hj
            rw [hAgree]
            apply Option.isSome_iff_exists.mpr
            have hjl : j < st.m_nodes.length := by omega
            exact ⟨_, List.getElem?_eq_getElem hjl⟩
          rw [build_list_memo nodes layers nodes.length (iii :: []) (by omega) _ st hall] at h
          split at h
          · exact absurd h (by simp)
          · rename_i st1x heq
            cases heq
            split at h
            · rename_i htyFF
              split at h
              · exact absurd h (by simp)
              · rename_i nd st2 hgff
                cases h
                obtain ⟨hnm, hmn2, e2, hstk⟩ := get_ff_post _ _ _ _ _ hgff
                apply hpush st2 nd
                · intro i
                  rw [hnm, hmn2]
                  exact hAgree i
                · rw [hmn2]
                  exact hlen
            · rename_i htyC
              split at h
              · exact absurd h (by simp)
              · rename_i ins hg
                cases h
                exact hpush st _ hAgree hlen
            · exact absurd h (by simp)

theorem topo_loop (nodes : List NodeConfig) (layers : List LayerConfig)
    (htopo : TopoOrdered nodes) :
    ∀ cnt k st st1, k + cnt ≤ nodes.length →
      (∀ i, st.node_map.lookup i = st.m_nodes[i]?) → st.m_nodes.length = k →
      build_loop nodes layers (List.range' k cnt) st = .ok st1 →
      (∀ i, st1.node_map.lookup i = st1.m_nodes[i]?) ∧ st1.m_nodes.length = k + cnt := by
  intro cnt
  induction cnt with
  | zero =>
    intro k st st1 hle hA hL h
    rw [show List.range' k 0 = [] from rfl, build_loop] at h
    cases h
    exact ⟨hA, by omega⟩
  | succ c ihc =>
    intro k st st1 hle hA hL h
    rw [show List.range' k (c+1) = k :: List.range' (k+1) c from rfl, build_loop] at h
    split at h
    · exact absurd h (by simp)
    · rename_i stm hs
      obtain ⟨hA2, hL2⟩ := topo_step nodes layers htopo k (by omega) st stm hA hL hs
      have := ihc (k+1) stm st1 (by omega) hA2 hL2 h
      exact ⟨this.1, by omega⟩

theorem buildGraph_topo (nodes : List NodeConfig) (layers : List LayerConfig)
    (st : BuildState) (h : buildGraph nodes layers = .ok st) (htopo : TopoOrdered nodes) :
    ∀ i, st.node_map.lookup i = st.m_nodes[i]? := by
  rw [buildGraph] at h
  split at h
  · exact absurd h (by simp)
  · rename_i stl hl
    split at h
    · injection h with hx
      subst hx
      rw [List.range_eq_range'] at hl
      have hinit : ∀ i, initState.node_map.lookup i = initState.m_nodes[i]? := by
        intro i
        simp [initState, List.lookup]
      exact (topo_loop nodes layers htopo nodes.length 0 initState stl
        (by omega) hinit (by simp [initState]) hl).1
    · exact absurd h (by simp)

theorem build_list_post (nodes : List NodeConfig) (layers : List LayerConfig)
    (f : Nat) (cc2 : List Nat) :
    ∀ srcs st st1,
      build_list_with (fun s st0 => build_node nodes layers f s st0 cc2) srcs st = .ok st1 →
      StExt st st1 ∧ CFresh nodes cc2 st st1 ∧ (GInv nodes st → GInv nodes st1) ∧
      ∀ j ∈ srcs, (st1.node_map.lookup j).isSome := by
  intro srcs
  induction srcs with
  | nil =>
    intro st st1 h
    rw [build_list_with] at h
    cases h
    exact ⟨stExt_refl _, cFresh_refl _ _ _, fun g => g, by simp⟩
  | cons s rest ihs =>
    intro st st1 h
    rw [build_list_with] at h
    split at h
    · exact absurd h (by simp)
    · rename_i stm hs
      obtain ⟨e1, c1, g1, p1⟩ := build_node_post nodes layers f s st cc2 stm hs
      obtain ⟨e2, c2, g2, pall⟩ := ihs stm st1 h
      refine ⟨e1.trans e2, ?_, fun g => g2 (g1 g), ?_⟩
      · intro m hm hty hn
        exact c2 m hm hty (c1 m hm hty hn)
      · intro j hj
        rcases List.mem_cons.mp hj with rfl | hj2
        · obtain ⟨v, hv⟩ := Option.isSome_iff_exists.mp p1
          exact Option.isSome_iff_exists.mpr ⟨v, e2.1 j v hv⟩
        · exact pall j hj2

theorem keys_count {α : Type} (l : List (Nat × α)) (N : Nat)
    (hnd : (l.map Prod.fst).Nodup) (hlt : ∀ p ∈ l, p.1 < N)
    (hall : ∀ i, i < N → (l.lookup i).isSome) : l.length = N := by
  have h1 : (l.map Prod.fst).toFinset ⊆ Finset.range N := by
    intro x hx
    simp only [List.mem_toFinset, List.mem_map] at hx
    obtain ⟨p, hp, rfl⟩ := hx
    simp [hlt p hp]
  have h2 : Finset.range N ⊆ (l.map Prod.fst).toFinset := by
    intro i hi
    simp only [Finset.mem_range] at hi
    have := hall i hi
    rw [lookup_isSome_iff] at this
    simpa using this
  have heq : (l.map Prod.fst).toFinset = Finset.range N := Finset.Subset.antisymm h1 h2
  have : (l.map Prod.fst).toFinset.card = N := by rw [heq]; simp
  rw [List.toFinset_card_of_nodup hnd] at this
  simpa using this

theorem gather_ok (srcs : List Nat) (m : List (Nat × INode))
    (hall : ∀ j ∈ srcs, (m.lookup j).isSome) :
    ∃ ins, gatherSources srcs m = .ok ins := by
  induction srcs with
  | nil => exact ⟨[], by rw [gatherSources]⟩
  | cons s rest ihs =>
    obtain ⟨v, hv⟩ := Option.isSome_iff_exists.mp (hall s (by simp))
    obtain ⟨ins, hins⟩ := ihs (fun j hj => hall j (by simp [hj]))
    exact ⟨v :: ins, by rw [gatherSources, hv, hins]⟩

theorem get_ff_ok (node : NodeConfig) (layers : List LayerConfig) (st : BuildState)
    (s0 : Nat) (hs : node.sources = [s0]) (hpres : (st.node_map.lookup s0).isSome)
    (hpos : 0 ≤ node.index) (hL : node.index.toNat < layers.length) :
    ∃ nd st2, get_feedforward_node node layers st = .ok (nd, st2) := by
  obtain ⟨v, hv⟩ := Option.isSome_iff_exists.mp hpres
  simp only [get_feedforward_node, hs, hv]
  rw [if_neg (by omega)]
  rw [dif_neg (by omega)]
  split
  · exact ⟨_, _, rfl⟩
  · exact ⟨_, _, rfl⟩

theorem build_node_ok (nodes : List NodeConfig) (layers : List LayerConfig)
    (hwf : WFConfig nodes layers) (rank : Nat → Nat) (hrank : RankOk nodes rank) :
    ∀ R iii, rank iii < R → ∀ fuel (st : BuildState) (cc : List Nat),
      iii < nodes.length → cc.Nodup → (∀ c ∈ cc, c < nodes.length ∧ rank iii < rank c) →
      nodes.length + 1 ≤ fuel + cc.length →
      ∃ st1, build_node nodes layers fuel iii st cc = .ok st1 := by
  intro R
  induction R with
  | zero =>
    intro iii h
    omega
  | succ R ihR =>
    intro iii hiR fuel st cc hi hnd hcc hfuel
    have hccN : cc.length ≤ nodes.length := by
      have hc1 : cc.toFinset.card = cc.length := List.toFinset_card_of_nodup hnd
      have hsub : cc.toFinset ⊆ Finset.range nodes.length := by
        intro x hx
        simp only [List.mem_toFinset] at hx
        simp [(hcc x hx).1]
      calc cc.length = cc.toFinset.card := hc1.symm
        _ ≤ (Finset.range nodes.length).card := Finset.card_le_card hsub
        _ = nodes.length := by simp
    obtain ⟨f, rfl⟩ : ∃ f, fuel = f + 1 := ⟨fuel - 1, by omega⟩
    by_cases hmemo : (st.node_map.lookup iii).isSome
    · exact ⟨st, build_node_memo nodes layers (f + 1) iii st cc (by omega) hmemo⟩
    · rw [build_node, if_neg hmemo, dif_neg (by omega : ¬ nodes.length ≤ iii)]
      rw [build_entry]
      have hmem : nodes.get ⟨iii, hi⟩ ∈ nodes := List.get_mem nodes iii hi
      have hwfn := hwf _ hmem
      by_cases hty : (nodes.get ⟨iii, hi⟩).type = .INPUT
      · rw [if_pos hty]
        rw [wfNode] at hwfn
        rw [hty] at hwfn
        simp only [Bool.and_eq_true, beq_iff_eq, decide_eq_true_eq] at hwfn
        obtain ⟨hlen1, hpos⟩ := hwfn
        obtain ⟨s0, hs0⟩ := List.length_eq_one.mp hlen1
        simp only [hs0]
        rw [if_neg (by omega : ¬ (nodes.get ⟨iii, hi⟩).index < 0)]
        exact ⟨_, rfl⟩
      · rw [if_neg hty]
        have hiicc : iii ∉ cc := by
          intro hmem2
          exact absurd ((hcc iii hmem2).2) (lt_irrefl _)
        rw [if_neg hiicc]
        have hsrcs : ∀ j ∈ (nodes.get ⟨iii, hi⟩).sources,
            j < nodes.length ∧ rank j < rank iii := by
          intro j hj
          refine ⟨?_, hrank iii hi hty j hj⟩
          rw [wfNode] at hwfn
          cases htyc : (nodes.get ⟨iii, hi⟩).type with
          | INPUT => exact absurd htyc hty
          | FEED_FORWARD =>
            rw [htyc] at hwfn
            simp only [Bool.and_eq_true, beq_iff_eq, decide_eq_true_eq,
              List.all_eq_true] at hwfn
            exact hwfn.1.1.2 j hj
          | CONCATENATE =>
            rw [htyc] at hwfn
            simp only [List.all_eq_true, decide_eq_true_eq] at hwfn
            exact hwfn j hj
          | OTHER =>
            rw [htyc] at hwfn
            simp at hwfn
        have hlistok : ∀ srcs (stx : BuildState),
            (∀ j ∈ srcs, j < nodes.length ∧ rank j < rank iii) →
            ∃ sty, build_list_with
              (fun s st0 => build_node nodes layers f s st0 (iii :: cc)) srcs stx
              = .ok sty := by
          intro srcs
          induction srcs with
          | nil =>
            intro stx hall2
            exact ⟨stx, by rw [build_list_with]⟩
          | cons s rest ihs =>
            intro stx hall2
            obtain ⟨hsN, hsr⟩ := hall2 s (by simp)
            have hnd2 : (iii :: cc).Nodup := List.nodup_cons.mpr ⟨hiicc, hnd⟩
            have hcc2 : ∀ c ∈ iii :: cc, c < nodes.length ∧ rank s < rank c := by
              intro c hcm
              rcases List.mem_cons.mp hcm with rfl | hcm2
              · exact ⟨hi, hsr⟩
              · exact ⟨(hcc c hcm2).1, lt_trans hsr (hcc c hcm2).2⟩
            obtain ⟨stm, hstm⟩ := ihR s (by omega) f stx (iii :: cc) hsN hnd2 hcc2
              (by simp only [List.length_cons]; omega)
            obtain ⟨sty, hsty⟩ := ihs stm (fun j hj => hall2 j (by simp [hj]))
            refine ⟨sty, ?_⟩
            rw [build_list_with, hstm]
            exact hsty
        obtain ⟨stm, hstm⟩ := hlistok _ st hsrcs
        rw [hstm]
        obtain ⟨_, _, _, pall⟩ := build_list_post nodes layers f (iii :: cc) _ st stm hstm
        rw [wfNode] at hwfn
        cases htyc : (nodes.get ⟨iii, hi⟩).type with
        | INPUT => exact absurd htyc hty
        | FEED_FORWARD =>
          rw [htyc] at hwfn
          simp only [Bool.and_eq_true, beq_iff_eq, decide_eq_true_eq,
            List.all_eq_true] at hwfn
          obtain ⟨⟨⟨hlen1, hbnd⟩, hpos⟩, hLt⟩ := hwfn
          obtain ⟨s0, hs0⟩ := List.length_eq_one.mp hlen1
          have hpres : (stm.node_map.lookup s0).isSome := by
            apply pall
            rw [hs0]
            simp
          obtain ⟨nd, st2, hff2⟩ := get_ff_ok _ layers stm s0 hs0 hpres hpos hLt
          simp only [htyc, hff2]
          exact ⟨_, rfl⟩
        | CONCATENATE =>
          obtain ⟨ins, hins⟩ := gather_ok _ stm.node_map pall
          simp only [htyc, hins]
          exact ⟨_, rfl⟩
        | OTHER =>
          rw [htyc] at hwfn
          simp at hwfn

theorem buildGraph_ok (nodes : List NodeConfig) (layers : List LayerConfig)
    (hwf : WFConfig nodes layers) (rank : Nat → Nat) (hrank : RankOk nodes rank) :
    ∃ st, buildGraph nodes layers = .ok st := by
  have hloop : ∀ l (st : BuildState), (∀ i ∈ l, i < nodes.length) →
      ∃ st1, build_loop nodes layers l st = .ok st1 := by
    intro l
    induction l with
    | nil =>
      intro st _
      exact ⟨st, by rw [build_loop]⟩
    | cons i rest ihs =>
      intro st hall
      obtain ⟨stm, hstm⟩ := build_node_ok nodes layers hwf rank hrank (rank i + 1) i
        (by omega) (nodes.length + 1) st [] (hall i (by simp)) (by simp) (by simp)
        (by simp)
      obtain ⟨st1, h1⟩ := ihs stm (fun j hj => hall j (by simp [hj]))
      refine ⟨st1, ?_⟩
      rw [build_loop, hstm]
      exact h1
  obtain ⟨stl, hl⟩ := hloop (List.range nodes.length) initState (by simp)
  obtain ⟨e, g, pall⟩ := build_loop_post nodes layers _ _ _ hl
  have gi := g (ginv_init nodes)
  have hcount : stl.node_map.length = nodes.length := by
    apply keys_count stl.node_map nodes.length gi.ndKeys gi.keysLt
    intro i hi
    exact pall i (by simp [hi])
  refine ⟨stl, ?_⟩
  simp [buildGraph, hl, hcount]

/-! The claims. -/

/-- Claim C1 (amended): for every configuration, a successful Graph
construction produces exactly N Node instances - one per configuration
entry, every entry resolved in node_map - and Graph::compute(source, i)
dispatches to the i-th node of m_nodes in construction (push_back) order;
when every non-INPUT entry lists only sources with smaller ids (so no
later entry is resolved earlier through recursion), construction order
coincides with configuration position and m_nodes[i] is exactly the node
built from entry i. -/
theorem c1_completeness (nodes : List NodeConfig) (layers : List LayerConfig)
    (st : BuildState) (h : buildGraph nodes layers = .ok st) :
    st.m_nodes.length = nodes.length ∧
    (∀ i, i < nodes.length → (st.node_map.lookup i).isSome) ∧
    (∀ i (hi : i < st.m_nodes.length) (s : Source),
      (graphOf st).compute s i = (st.m_nodes.get ⟨i, hi⟩).compute s) ∧
    (TopoOrdered nodes → ∀ i, st.node_map.lookup i = st.m_nodes[i]?) := by
  obtain ⟨g, hml, hnl, hall⟩ := buildGraph_post nodes layers st h
  refine ⟨hnl, hall, ?_, buildGraph_topo nodes layers st h⟩
  intro i hi s
  rw [Graph.compute]
  rw [dif_neg (by simp only [graphOf]; omega)]
  rfl

def cfgC1 : List NodeConfig := [⟨.CONCATENATE, [1, 1], 0⟩, ⟨.INPUT, [0], 2⟩]
def inNodeC1 : INode := .input 0 2
def catNodeC1 : INode := .concatenate [inNodeC1, inNodeC1]
def stC1 : BuildState := ⟨[inNodeC1, catNodeC1], [], [(0, catNodeC1), (1, inNodeC1)], []⟩

/-- Claim C1, counterexample: in the two-entry configuration where entry 0
is a CONCATENATE depending on entry 1 (an INPUT), recursion pushes the
INPUT node first, so compute(source, 0) reaches the node built from entry
1 and yields the INPUT's vector, not the CONCATENATE's - nodes are
addressable by construction order, not by configuration position. -/
theorem c1_counterexample :
    buildGraph cfgC1 [] = .ok stC1 ∧
    stC1.node_map.lookup 0 = some catNodeC1 ∧
    (graphOf stC1).compute (.vector [[5, 7]]) 0 = .ok [5, 7] ∧
    catNodeC1.compute (.vector [[5, 7]]) = .ok [5, 7, 5, 7] ∧
    (Except.ok [5, 7] : Except EvalFault Vec) ≠ .ok [5, 7, 5, 7] := by
  refine ⟨rfl, rfl, rfl, rfl, ?_⟩
  intro hcontra
  simp at hcontra

def cfgC1w : List NodeConfig := [⟨.INPUT, [0], 2⟩, ⟨.CONCATENATE, [0], 0⟩]
def stC1w : BuildState := ⟨[.input 0 2, .concatenate [.input 0 2]], [],
  [(1, .concatenate [.input 0 2]), (0, .input 0 2)], []⟩

/-- Claim C1, witness: the amended statement applied to a concrete
topologically ordered two-entry configuration. -/
theorem c1_witness :
    buildGraph cfgC1w [] = .ok stC1w ∧
    (stC1w.m_nodes.length = cfgC1w.length ∧
     (∀ i, i < cfgC1w.length → (stC1w.node_map.lookup i).isSome) ∧
     (∀ i (hi : i < stC1w.m_nodes.length) (s : Source),
       (graphOf stC1w).compute s i = (stC1w.m_nodes.get ⟨i, hi⟩).compute s) ∧
     (TopoOrdered cfgC1w → ∀ i, stC1w.node_map.lookup i = stC1w.m_nodes[i]?)) :=
  ⟨rfl, c1_completeness cfgC1w [] stC1w rfl⟩

/-- Claim C2: a two-entry configuration in which each entry lists the
other as its sole upstream source (each of the two being FEED_FORWARD or
CONCATENATE) fails construction with the cycle configuration fault, and
the state carried by the fault still holds zero constructed nodes: the
cycle is detected before any push_back. -/
theorem c2_mutual_cycle (tA tB : NodeType) (iA iB : Int) (layers : List LayerConfig)
    (hA : tA = .FEED_FORWARD ∨ tA = .CONCATENATE)
    (hB : tB = .FEED_FORWARD ∨ tB = .CONCATENATE) :
    buildGraph [⟨tA, [1], iA⟩, ⟨tB, [0], iB⟩] layers = .error (.cycle, initState) ∧
    initState.m_nodes = [] := by
  rcases hA with rfl | rfl <;> rcases hB with rfl | rfl <;> exact ⟨rfl, rfl⟩

/-- Claim C2, witness: the mutual cycle fault for a concrete
FEED_FORWARD / CONCATENATE pair. -/
theorem c2_witness :
    buildGraph [⟨.FEED_FORWARD, [1], 0⟩, ⟨.CONCATENATE, [0], 0⟩] []
      = .error (.cycle, initState) ∧
    initState.m_nodes = [] :=
  c2_mutual_cycle .FEED_FORWARD .CONCATENATE 0 0 [] (Or.inl rfl) (Or.inr rfl)

/-- Claim C3: in a successfully built graph, any two distinct
FEED_FORWARD entries referencing the same stage-defining id resolve to
nodes holding the same stack index, both pointing at the single stack in
the arena at that index; moreover the stack cache is in bijection with the
stack arena (one owned Stack per distinct cached layer id, keys unique),
so the Stage collection never holds more than one instance per id. -/
theorem c3_stage_sharing (nodes : List NodeConfig) (layers : List LayerConfig)
    (st : BuildState) (h : buildGraph nodes layers = .ok st)
    (i j : Nat) (hi : i < nodes.length) (hj : j < nodes.length) (hij : i ≠ j)
    (hti : (nodes.get ⟨i, hi⟩).type = .FEED_FORWARD)
    (htj : (nodes.get ⟨j, hj⟩).type = .FEED_FORWARD)
    (hidx : (nodes.get ⟨i, hi⟩).index = (nodes.get ⟨j, hj⟩).index) :
    (∃ k, ∃ hk : k < st.m_stacks.length, ∃ si sj,
      st.node_map.lookup i = some (.feedForward k (st.m_stacks.get ⟨k, hk⟩) si) ∧
      st.node_map.lookup j = some (.feedForward k (st.m_stacks.get ⟨k, hk⟩) sj)) ∧
    st.stack_map.length = st.m_stacks.length ∧
    (st.stack_map.map Prod.fst).Nodup := by
  obtain ⟨g, hml, hnl, hall⟩ := buildGraph_post nodes layers st h
  obtain ⟨vi, hvi⟩ := Option.isSome_iff_exists.mp (hall i hi)
  obtain ⟨vj, hvj⟩ := Option.isSome_iff_exists.mp (hall j hj)
  obtain ⟨ki, si, hsi, hki, hndi⟩ := g.ffOk i vi hvi hi hti
  obtain ⟨kj, sj, hsj, hkj, hndj⟩ := g.ffOk j vj hvj hj htj
  have hk : ki = kj := by
    rw [hidx] at hsi
    rw [hsi] at hsj
    exact Option.some.inj hsj
  subst hk
  refine ⟨⟨ki, hki, si, sj, ?_, ?_⟩, g.stLen, g.stKeys⟩
  · rw [hvi, hndi]
  · rw [hvj, hndj]


def layShared : LayerConfig := ⟨3, fun _ => []⟩
def stkShared : Stack := ⟨2, layShared⟩
def ffShared : INode := .feedForward 0 stkShared (.input 0 2)
def cfgC3 : List NodeConfig :=
  [⟨.INPUT, [0], 2⟩, ⟨.FEED_FORWARD, [0], 0⟩, ⟨.FEED_FORWARD, [0], 0⟩]
def stC3 : BuildState :=
  ⟨[.input 0 2, ffShared, ffShared], [stkShared],
   [(2, ffShared), (1, ffShared), (0, .input 0 2)], [(0, 0)]⟩

/-- Claim C3, witness: two FEED_FORWARD entries referencing layer 0 share
the single constructed stack. -/
theorem c3_witness :
    buildGraph cfgC3 [layShared] = .ok stC3 ∧ (1 : Nat) ≠ 2 ∧
    ((∃ k, ∃ hk : k < stC3.m_stacks.length, ∃ si sj,
      stC3.node_map.lookup 1 = some (.feedForward k (stC3.m_stacks.get ⟨k, hk⟩) si) ∧
      stC3.node_map.lookup 2 = some (.feedForward k (stC3.m_stacks.get ⟨k, hk⟩) sj)) ∧
     stC3.stack_map.length = stC3.m_stacks.length ∧
     (stC3.stack_map.map Prod.fst).Nodup) := by
  refine ⟨rfl, by omega, ?_⟩
  exact c3_stage_sharing cfgC3 [layShared] stC3 rfl 1 2 (by decide) (by decide)
    (by omega) rfl rfl rfl

def stackW0 : Stack := ⟨1, ⟨0, fun _ => []⟩⟩
def ffW0 : INode := .feedForward 0 stackW0 (.input 0 1)

/-- Claim C4 (code bug at width 0): concatenation of upstream vectors in
listed order works as specified for positive declared width - e.g.
upstream vectors [1,2] and [3,4,5] yield exactly [1,2,3,4,5], and the
declared width is the sum of the upstream widths - but for a Concatenate
node of declared width 0 whose upstream compute calls all succeed, the
final `assert(offset = m_n_outputs)` (an assignment, a slip for `==`)
asserts 0 and aborts instead of returning the empty concatenation. -/
theorem c4_concatenate_eval :
    (INode.concatenate [.input 0 2, .input 1 3]).compute (.vector [[1, 2], [3, 4, 5]])
      = .ok [1, 2, 3, 4, 5] ∧
    (INode.concatenate [.input 0 2, .input 1 3]).n_outputs = 2 + 3 ∧
    ffW0.compute (.vector [[5]]) = .ok [] ∧
    (INode.concatenate [ffW0]).n_outputs = 0 ∧
    (INode.concatenate [ffW0]).compute (.vector [[5]]) = .error .assertFail :=
  ⟨rfl, rfl, rfl, rfl, rfl⟩

/-- Claim C5 (amended): provided the vector fetched from the source is
non-empty, Input.compute fails with the "found vector of length X,
expected Y" evaluation error iff X differs from the declared width, and
returns the fetched vector unchanged when they agree; an empty fetched
vector instead trips assert(output.rows() > 0), even when the declared
width 0 matches. -/
theorem c5_input_width (slot width : Nat) (s : Source) (v : Vec)
    (hat : s.at slot = .ok v) (hne : v ≠ []) :
    ((INode.input slot width).compute s
        = .error (.evalErr (.wrongLength v.length width)) ↔ v.length ≠ width) ∧
    (v.length = width → (INode.input slot width).compute s = .ok v) := by
  have hlen : ¬ v.length = 0 := fun h0 => hne (List.length_eq_zero.mp h0)
  by_cases hw : v.length = width
  · subst hw
    refine ⟨?_, fun _ => ?_⟩
    · simp [INode.compute, hat, hlen]
    · simp [INode.compute, hat, hlen]
  · refine ⟨?_, fun hcontra => absurd hcontra hw⟩
    simp [INode.compute, hat, hlen, hw]

/-- Claim C5, counterexample: a width-0 Input node against a slot holding
the empty vector: the lengths agree, yet compute aborts on the
non-emptiness assert rather than returning the vector unchanged, so the
claimed equivalence fails without the non-emptiness precondition. -/
theorem c5_counterexample :
    (Source.vector [[]]).at 0 = .ok [] ∧
    (INode.input 0 0).compute (.vector [[]]) = .error .assertFail ∧
    (Except.error EvalFault.assertFail : Except EvalFault Vec) ≠ .ok [] := by
  refine ⟨rfl, rfl, ?_⟩
  intro hcontra
  simp at hcontra

/-- Claim C5, witness: the amended statement at a width-2 Input node
fetching the 3-element vector [3,4,5]. -/
theorem c5_witness :
    (Source.vector [[3, 4, 5]]).at 0 = .ok [3, 4, 5] ∧
    ([3, 4, 5] : Vec) ≠ [] ∧
    (((INode.input 0 2).compute (.vector [[3, 4, 5]])
        = .error (.evalErr (.wrongLength (List.length ([3, 4, 5] : Vec)) 2))
      ↔ List.length ([3, 4, 5] : Vec) ≠ 2) ∧
     (List.length ([3, 4, 5] : Vec) = 2 →
       (INode.input 0 2).compute (.vector [[3, 4, 5]]) = .ok [3, 4, 5])) := by
  refine ⟨rfl, by simp, ?_⟩
  exact c5_input_width 0 2 (.vector [[3, 4, 5]]) [3, 4, 5] rfl (by simp)

instance (nodes : List NodeConfig) (layers : List LayerConfig) :
    Decidable (WFConfig nodes layers) :=
  inferInstanceAs (Decidable (∀ cfg ∈ nodes, wfNode nodes.length layers.length cfg = true))

instance (nodes : List NodeConfig) (rank : Nat → Nat) : Decidable (RankOk nodes rank) :=
  inferInstanceAs (Decidable (∀ i (h : i < nodes.length),
    (nodes.get ⟨i, h⟩).type ≠ .INPUT → ∀ j ∈ (nodes.get ⟨i, h⟩).sources, rank j < rank i))

instance (nodes : List NodeConfig) : Decidable (TopoOrdered nodes) :=
  inferInstanceAs (Decidable (∀ i (h : i < nodes.length),
    (nodes.get ⟨i, h⟩).type ≠ .INPUT → ∀ j ∈ (nodes.get ⟨i, h⟩).sources, j < i))

/-- Claim C6: every well-formed configuration that is acyclic - certified
by a rank function strictly decreasing across each dependency edge out of
a non-INPUT entry, a certificate every diamond-reconvergent DAG admits and
no back-edge to an active ancestor admits - builds successfully: the
by-value cycle_check only rejects back-edges into the active resolution
chain, and one sibling branch's extension never leaks into another. -/
theorem c6_acyclic_build (nodes : List NodeConfig) (layers : List LayerConfig)
    (hwf : WFConfig nodes layers) (rank : Nat → Nat) (hrank : RankOk nodes rank) :
    ∃ st, buildGraph nodes layers = .ok st :=
  buildGraph_ok nodes layers hwf rank hrank

def layD : LayerConfig := ⟨2, fun v => v⟩
def cfgD : List NodeConfig :=
  [⟨.INPUT, [0], 2⟩, ⟨.FEED_FORWARD, [0], 0⟩, ⟨.FEED_FORWARD, [0], 0⟩,
   ⟨.CONCATENATE, [1, 2], 0⟩]

/-- Claim C6, witness: a diamond - two FEED_FORWARD siblings over the same
INPUT ancestor, reconverging in a CONCATENATE - is well formed and ranked,
so it builds successfully. -/
theorem c6_witness :
    WFConfig cfgD [layD] ∧ RankOk cfgD (fun i => [0, 1, 1, 2].getD i 0) ∧
    ∃ st, buildGraph cfgD [layD] = .ok st := by
  refine ⟨by decide, by decide, ?_⟩
  exact c6_acyclic_build cfgD [layD] (by decide) (fun i => [0, 1, 1, 2].getD i 0) (by decide)

/-- Claim C7 (amended): Graph::compute(source, node_number) raises the
"Graph: no node at" evaluation error exactly when node_number is at or
beyond the node count; an in-range call dispatches to the node, which can
only raise its own faults, never that error. Evaluation is a pure function
of the graph value, which it never modifies, so a failed call cannot
change later results. -/
theorem c7_out_of_range (g : Graph) (s : Source) (i : Nat) :
    g.compute s i = .error (.evalErr (.graphNoNode i)) ↔ g.m_nodes.length ≤ i := by
  constructor
  · intro h
    by_contra hlt
    rw [Graph.compute, dif_neg hlt] at h
    exact compute_no_graphNoNode _ s i h
  · intro h
    rw [Graph.compute, dif_pos h]

def gC7 : Graph := ⟨[.input 0 2], []⟩

/-- Claim C7, counterexample: an in-range node id can still produce an
evaluation error (a width mismatch from the dispatched Input node), so
"raises an evaluation error iff node_id out of range" fails as stated;
only the out-of-range error obeys the equivalence. -/
theorem c7_counterexample :
    gC7.compute (.vector [[1, 2, 3]]) 0 = .error (.evalErr (.wrongLength 3 2)) ∧
    0 < gC7.m_nodes.length ∧
    EvalErr.wrongLength 3 2 ≠ .graphNoNode 0 := by
  refine ⟨rfl, by simp [gC7], by simp⟩

/-- Claim C8: for every successfully built graph over a non-empty
configuration, the no-argument compute(source) through m_nodes.back()
returns exactly what the indexed compute(source, id) returns at the id of
the last node added during construction, which is N - 1 since
construction yields exactly N nodes. -/
theorem c8_default_compute (nodes : List NodeConfig) (layers : List LayerConfig)
    (st : BuildState) (h : buildGraph nodes layers = .ok st) (hne : nodes ≠ [])
    (s : Source) :
    (graphOf st).computeDefault s = (graphOf st).compute s (nodes.length - 1) := by
  obtain ⟨g, hml, hnl, hall⟩ := buildGraph_post nodes layers st h
  have hpos : 0 < st.m_nodes.length := by
    rw [hnl]
    cases nodes with
    | nil => cases hne rfl
    | cons a t => simp
  have hgne : (graphOf st).m_nodes ≠ [] := by
    simp only [graphOf]
    intro hx
    rw [hx] at hpos
    simp at hpos
  rw [Graph.computeDefault, Graph.compute]
  rw [List.getLast?_eq_getLast _ hgne, List.getLast_eq_getElem]
  rw [dif_neg (by simp only [graphOf]; omega)]
  simp only [List.get_eq_getElem]
  congr 1
  simp only [graphOf, hnl]

def stC8 : BuildState := ⟨[.input 0 2], [], [(0, .input 0 2)], []⟩

/-- Claim C8, witness: the default compute equals the indexed compute at
the last added id for a concrete one-node graph. -/
theorem c8_witness :
    buildGraph [⟨.INPUT, [0], 2⟩] [] = .ok stC8 ∧
    ([⟨.INPUT, [0], 2⟩] : List NodeConfig) ≠ [] ∧
    (graphOf stC8).computeDefault (.vector [[1, 2]])
      = (graphOf stC8).compute (.vector [[1, 2]]) (([⟨.INPUT, [0], 2⟩] : List NodeConfig).length - 1) := by
  refine ⟨rfl, by simp, ?_⟩
  exact c8_default_compute [⟨.INPUT, [0], 2⟩] [] stC8 rfl (by simp) _

def stC9 : BuildState := ⟨[.concatenate []], [], [(0, .concatenate [])], []⟩

/-- Claim C9 (code bug at evaluation): a CONCATENATE entry with an empty
sources list builds without any arity fault and its node's declared width
is 0, as claimed; but its compute aborts on the final
`assert(offset = m_n_outputs)` - an assignment whose value 0 is falsy -
instead of returning the zero-length vector the (clearly intended) `==`
comparison would allow. -/
theorem c9_empty_concatenate :
    buildGraph [⟨.CONCATENATE, [], 0⟩] [] = .ok stC9 ∧
    (INode.concatenate []).n_outputs = 0 ∧
    ∀ s : Source, (INode.concatenate []).compute s = .error .assertFail := by
  refine ⟨rfl, rfl, ?_⟩
  intro s
  rw [INode.compute, INode.computeParts]
  simp [INode.sumOutputs]

/-- Claim C10: Input.compute asserts the fetched vector is non-empty
before the width comparison: when the source yields a vector of positive
length at the slot, the assert passes and the only failure mode is the
typed width-mismatch evaluation error; an empty fetched vector aborts on
the assert, so a width-0 Input node can never return any vector - in
particular not its length-matching empty one. -/
theorem c10_input_assert :
    (∀ slot width (s : Source) (v : Vec), s.at slot = .ok v → 0 < v.length →
      (INode.input slot width).compute s
        = if v.length = width then .ok v
          else .error (.evalErr (.wrongLength v.length width))) ∧
    (∀ slot width (s : Source), s.at slot = .ok [] →
      (INode.input slot width).compute s = .error .assertFail) ∧
    (∀ slot (s : Source) (v : Vec), (INode.input slot 0).compute s ≠ .ok v) := by
  refine ⟨?_, ?_, ?_⟩
  · intro slot width s v hat hpos
    have h0 : ¬ v.length = 0 := by omega
    by_cases hw : v.length = width
    · subst hw
      simp [INode.compute, hat, h0]
    · simp [INode.compute, hat, h0, hw]
  · intro slot width s hat
    simp [INode.compute, hat]
  · intro slot s v hcontra
    rw [INode.compute] at hcontra
    split at hcontra
    · exact absurd hcontra (by simp)
    · split at hcontra
      · exact absurd hcontra (by simp)
      · exact absurd hcontra (by simp)

/-- Claim C10, witness: the three parts applied at concrete inputs: a
width-1 node over [7], any node over an empty slot vector, and a width-0
node that can return nothing. -/
theorem c10_witness :
    (Source.vector [[7]]).at 0 = .ok [7] ∧ 0 < List.length ([7] : Vec) ∧
    (INode.input 0 1).compute (.vector [[7]])
      = (if List.length ([7] : Vec) = 1 then Except.ok ([7] : Vec)
         else .error (.evalErr (.wrongLength (List.length ([7] : Vec)) 1))) ∧
    (Source.vector [([] : Vec)]).at 0 = .ok [] ∧
    (INode.input 0 3).compute (.vector [[]]) = .error .assertFail ∧
    (INode.input 1 0).compute (.dummy [2, 2]) ≠ .ok [0, 1] := by
  refine ⟨rfl, by simp, ?_, rfl, ?_, ?_⟩
  · exact c10_input_assert.1 0 1 (.vector [[7]]) [7] rfl (by simp)
  · exact c10_input_assert.2.1 0 3 (.vector [[]]) rfl
  · exact c10_input_assert.2.2 1 (.dummy [2, 2]) [0, 1]
